import Mathlib

/-
Verification of the core text-processing logic of a small RAG
(retrieval-augmented generation) question-answering application.

The development shallowly embeds the Python modules:
  * preprocessing.py : clean_text, count_tokens (length/4 fallback), chunk_text
  * retrieval.py     : search_similar (threshold filtering over store results)
  * qa_pipeline.py   : RAGPipeline._fallback_response and RAGPipeline.ask
  * evaluation.py    : evaluate_retrieval, evaluate_answer_quality,
                       comprehensive_evaluation
  * main.py          : the POST /ask handler ask_question

Strings are modelled by Lean String (a structure over List Char); Python
floats are modelled by rationals; external collaborators (the tiktoken
tokenizer, the embedding model, the vector index ordering, the hosted LLM)
enter as parameters, never as stubs of in-repository logic.
-/

/- ===== basic character predicates (ASCII model of the regex classes) ===== -/

/-- Whitespace test, modelling the regex class backslash-s. -/
def wsB (c : Char) : Bool := c.isWhitespace

/-- Word-character test, modelling the regex class backslash-w
(ASCII letters, digits and underscore). -/
def wordCharB (c : Char) : Bool := c.isAlphanum || c == '_'

/-- Characters kept by clean_text: word characters, whitespace and the
punctuation listed in the character class of preprocessing.py line 35. -/
def keepCharB (c : Char) : Bool :=
  wordCharB c || wsB c || c == '.' || c == ',' || c == '!' || c == '?' ||
    c == ';' || c == ':' || c == '-' || c == '(' || c == ')'

/-- Sentence-ending characters of the split regex in preprocessing.py line 79. -/
def sentEndB (c : Char) : Bool := c == '.' || c == '!' || c == '?'

/- ===== clean_text (preprocessing.py lines 21-40) ===== -/

/-- One pass of re.sub on backslash-s+, replacing every maximal whitespace
run by a single space; the Bool flag records whether the previous character
was part of a whitespace run. -/
def collapseGo : List Char → Bool → List Char
  | [], _ => []
  | c :: t, prev =>
    if wsB c then
      if prev then collapseGo t true else ' ' :: collapseGo t true
    else c :: collapseGo t false

/-- Python str.strip on a character list: drop whitespace from both ends. -/
def stripL (l : List Char) : List Char :=
  ((l.dropWhile wsB).reverse.dropWhile wsB).reverse

/-- clean_text on the character list: collapse whitespace runs, drop the
characters outside the kept class, strip the ends (preprocessing.py 21-40). -/
def cleanTextL (l : List Char) : List Char :=
  stripL (List.filter keepCharB (collapseGo l false))

/-- clean_text of preprocessing.py. -/
def clean_text (s : String) : String := String.mk (cleanTextL s.data)

/- ===== token counting (preprocessing.py lines 43-57) ===== -/

/-- The deterministic fallback tokenizer of count_tokens: one token per four
characters (preprocessing.py line 57).  The tiktoken path is an external
library and is abstracted by quantifying over the token counter. -/
def countTokensApprox (s : String) : Nat := s.data.length / 4

/-- A one-token-per-letter counter, used by the spec's chunking example. -/
def tokLetters (s : String) : Nat := (s.data.filter Char.isAlpha).length

/- ===== splitting helpers ===== -/

/-- Split a character list at every character satisfying p, keeping empty
pieces, as Python str.split(sep) does for a one-character separator. -/
def splitBy (p : Char → Bool) : List Char → List (List Char)
  | [] => [[]]
  | c :: t =>
    if p c then [] :: splitBy p t
    else
      match splitBy p t with
      | [] => [[c]]
      | q :: qs => (c :: q) :: qs

/-- Python str.split() with no argument: split on whitespace and drop the
empty pieces. -/
def wordsOf (s : String) : List String :=
  ((splitBy wsB s.data).filter (fun w => w ≠ [])).map String.mk

/-- Cut a character list after every sentence-ending character that is
immediately followed by whitespace.  Cutting does not consume characters:
each later piece starts with the whitespace run of the boundary. -/
def cutSents : List Char → List (List Char)
  | [] => [[]]
  | [c] => [[c]]
  | c :: d :: t =>
    if sentEndB c && wsB d then
      [c] :: cutSents (d :: t)
    else
      match cutSents (d :: t) with
      | [] => [[c]]
      | q :: qs => (c :: q) :: qs

/-- The sentence splitter of preprocessing.py line 79: the regex splits at
each whitespace run preceded by a sentence-ending character and consumes the
run, which equals cutting at the boundary and then dropping the leading
whitespace of every piece after the first. -/
def splitSentencesL (l : List Char) : List (List Char) :=
  match cutSents l with
  | [] => []
  | q :: qs => q :: qs.map (List.dropWhile wsB)

/- ===== string joining (Python str.join) ===== -/

/-- Continuation of joinWith: every remaining element is preceded by the
separator. -/
def joinWithRest (sep : String) : List String → String
  | [] => ""
  | s :: t => sep ++ s ++ joinWithRest sep t

/-- Python sep.join(list). -/
def joinWith (sep : String) : List String → String
  | [] => ""
  | s :: t => s ++ joinWithRest sep t

/-- Python " ".join(list). -/
def joinSp (l : List String) : String := joinWith " " l

/-- Python str.strip() on a String. -/
def trimS (s : String) : String := String.mk (stripL s.data)

/-- Python str.lower() (ASCII model). -/
def lowerS (s : String) : String := String.mk (s.data.map Char.toLower)

/-- Python substring containment (needle in hay) on character lists. -/
def containsSub (hay needle : List Char) : Bool :=
  match hay with
  | [] => needle.isEmpty
  | _ :: t => needle.isPrefixOf hay || containsSub t needle

/- ===== chunk_text (preprocessing.py lines 60-142) ===== -/

/-- The running state of the chunking loop: emitted chunks, the list of
pieces (sentences or words) of the chunk being built, and its tracked token
count. -/
structure ChunkState where
  chunks : List String
  cur : List String
  size : Nat
deriving DecidableEq

/-- The Python slice current_chunk[-chunk_overlap:] guarded by
len(current_chunk) > chunk_overlap (preprocessing.py lines 110 and 126);
note that a slice [-0:] is the whole list. -/
def overlapSlice (l : List String) (k : Nat) : List String :=
  if k < l.length then (if k = 0 then l else l.drop (l.length - k)) else l

/-- One iteration of the inner word loop for an oversized sentence
(preprocessing.py lines 105-115). -/
def processWord (tok : String → Nat) (cs co : Nat) (st : ChunkState)
    (word : String) : ChunkState :=
  let wt := tok word
  if cs < st.size + wt ∧ st.cur ≠ [] then
    let cur1 := overlapSlice st.cur co ++ [word]
    ⟨st.chunks ++ [joinSp st.cur], cur1, tok (joinSp cur1)⟩
  else ⟨st.chunks, st.cur ++ [word], st.size + wt⟩

/-- One iteration of the sentence loop of chunk_text
(preprocessing.py lines 85-131). -/
def processSentence (tok : String → Nat) (cs co : Nat) (st : ChunkState)
    (sentence : String) : ChunkState :=
  let s := trimS sentence
  if s = "" then st
  else
    let stoks := tok s
    if cs < stoks then
      let chunks1 := if st.cur = [] then st.chunks else st.chunks ++ [joinSp st.cur]
      let wf := (wordsOf s).foldl (processWord tok cs co) ⟨chunks1, [], 0⟩
      if wf.cur = [] then ⟨wf.chunks, [], 0⟩ else wf
    else
      if cs < st.size + stoks ∧ st.cur ≠ [] then
        let ov := joinSp (overlapSlice st.cur co)
        let cur1 := if ov = "" then [s] else [ov, s]
        ⟨st.chunks ++ [joinSp st.cur], cur1, tok (joinSp cur1)⟩
      else ⟨st.chunks, st.cur ++ [s], st.size + stoks⟩

/-- chunk_text before its final small-chunk filter
(preprocessing.py lines 72-135). -/
def chunk_text_prefilter (tok : String → Nat) (text : String) (cs co : Nat) :
    List String :=
  let t := clean_text text
  if t = "" then []
  else
    let sentences := (splitSentencesL t.data).map String.mk
    let st := sentences.foldl (processSentence tok cs co) ⟨[], [], 0⟩
    if st.cur = [] then st.chunks else st.chunks ++ [joinSp st.cur]

/-- chunk_text of preprocessing.py, parameterised by the token counter
(tiktoken when available, otherwise countTokensApprox): assemble chunks and
drop every chunk of at most 10 tokens (line 138). -/
def chunk_text (tok : String → Nat) (text : String) (cs co : Nat) :
    List String :=
  (chunk_text_prefilter tok text cs co).filter (fun c => 10 < tok c)

/- ===== retrieval scorer (retrieval.py lines 106-149) ===== -/

/-- The configured minimum similarity (config.py SIMILARITY_THRESHOLD = 0.5). -/
def SIMILARITY_THRESHOLD : ℚ := 1/2

/-- What the vector store returns for one query: the matched documents and
their cosine distances, as the parallel lists of a ChromaDB query result.
Which documents appear, and in which order, is decided by the external
index, so search_similar is verified for every possible query result. -/
structure QueryResult where
  documents : List String
  distances : List ℚ
deriving DecidableEq

/-- search_similar of retrieval.py: when the collection could not be loaded
the function logs and returns the empty list (lines 119-124); otherwise each
cosine distance is converted to a similarity 1 - distance (line 142) and the
pairs below the configured threshold are filtered out (line 145). -/
def search_similar (threshold : ℚ) (store : Option QueryResult) :
    List (String × ℚ) :=
  match store with
  | none => []
  | some r =>
    let sims := (r.documents.zip r.distances).map (fun p => (p.1, 1 - p.2))
    sims.filter (fun p => decide (threshold ≤ p.2))

/- ===== fallback answerer (qa_pipeline.py lines 120-149) ===== -/

/-- The question keywords of the fallback answerer: the whitespace-separated
tokens of the lower-cased question that are longer than 3 characters
(qa_pipeline.py line 142). -/
def fb_keywords (question : String) : List String :=
  (wordsOf (lowerS question)).filter (fun w => 3 < w.data.length)

/-- The sentences of the context as split by the fallback answerer:
context.split of the dot character (qa_pipeline.py line 136). -/
def fb_sentences (context : String) : List String :=
  (splitBy (fun c => c == '.') context.data).map String.mk

/-- The stripped context sentences whose lower-cased text contains at least
one question keyword (qa_pipeline.py lines 139-144). -/
def fb_relevant (context question : String) : List String :=
  ((fb_sentences context).filter
      (fun s => (fb_keywords question).any
        (fun w => containsSub (lowerS s).data w.data))).map trimS

/-- RAGPipeline._fallback_response: join the first at most two matching
sentences, or fall back to the 200-character truncated context
(qa_pipeline.py lines 146-149). -/
def fallback_response (context question : String) : String :=
  let relevant := fb_relevant context question
  if relevant = [] then
    "Based on the provided context: " ++ String.mk (context.data.take 200) ++ "..."
  else joinWith ". " (relevant.take 2) ++ "."

/- ===== RAGPipeline.ask (qa_pipeline.py lines 151-215) ===== -/

/-- The answer record returned by RAGPipeline.ask. -/
structure AskResult where
  answer : String
  sources : List String
  confidence : ℚ
  num_sources : Nat
deriving DecidableEq

/-- RAGPipeline._get_llm_response: a configured and successful hosted LLM
call is an arbitrary external function from context and question to an
answer; with no API key, or when the call fails, the fallback answerer is
used (qa_pipeline.py lines 81-118). -/
def getLLMResponse (llm : Option (String → String → String))
    (context question : String) : String :=
  match llm with
  | some f => f context question
  | none => fallback_response context question

/-- RAGPipeline.ask, with the external collaborators as parameters: loaded
is the vector_db_loaded flag, retrieved is the result of search_similar for
the question's query embedding, llm the optional hosted-LLM call, summarize
the optional chunk summarizer selected by use_summarization. -/
def ask (loaded : Bool) (retrieved : List (String × ℚ))
    (llm : Option (String → String → String))
    (summarize : Option (List String → String)) (question : String) :
    AskResult :=
  if loaded = false then
    ⟨"Error: Vector database not initialized.", [], 0, 0⟩
  else if retrieved = [] then
    ⟨"I couldn\x27t find relevant information to answer your question.", [], 0, 0⟩
  else
    let sources := retrieved.map Prod.fst
    let context :=
      match summarize with
      | some g => g sources
      | none => joinWith "\n\n" sources
    let answer := getLLMResponse llm context question
    let avg := (retrieved.map Prod.snd).sum / (retrieved.length : ℚ)
    ⟨answer, sources.take 3, avg, retrieved.length⟩

/- ===== evaluation heuristics (evaluation.py) ===== -/

/-- The record built by evaluate_retrieval. -/
structure RetrievalEval where
  relevance_score : ℚ
  coverage : ℚ
  is_relevant : Bool
  is_complete : Bool
  assessment : String
deriving DecidableEq

/-- evaluate_retrieval of evaluation.py (lines 44-77).  The relevance score
comes from calculate_relevance_score, a mean of embedding dot products of
the external sentence-embedding model, and is therefore a parameter. -/
def evaluate_retrieval (relevance_score : ℚ) (query : String)
    (retrieved : List String) (min_score : ℚ) : RetrievalEval :=
  let kws := (((wordsOf query).map lowerS).filter
      (fun w => 3 < w.data.length)).dedup
  let retrieved_text := lowerS (joinWith " " retrieved)
  let covered := (kws.filter
      (fun w => containsSub retrieved_text.data w.data)).length
  let coverage : ℚ := if kws = [] then 0 else (covered : ℚ) / (kws.length : ℚ)
  ⟨relevance_score, coverage, decide (min_score ≤ relevance_score),
    decide ((1:ℚ)/2 ≤ coverage),
    if min_score ≤ relevance_score ∧ (1:ℚ)/2 ≤ coverage then "Good"
    else "Needs improvement"⟩

/-- The record built by evaluate_answer_quality. -/
structure AnswerEval where
  has_answer : Bool
  context_usage : ℚ
  length_score : ℚ
  overall_quality : String
deriving DecidableEq

/-- evaluate_answer_quality of evaluation.py (lines 80-112). -/
def evaluate_answer_quality (answer query context : String) : AnswerEval :=
  let has_answer := decide (0 < (stripL answer.data).length)
  let context_keywords := (((wordsOf context).map lowerS).filter
      (fun w => 4 < w.data.length)).dedup
  let answer_lower := lowerS answer
  let context_usage := (context_keywords.filter
      (fun w => containsSub answer_lower.data w.data)).length
  let context_usage_ratio : ℚ :=
    if context_keywords = [] then 0
    else (context_usage : ℚ) / (context_keywords.length : ℚ)
  let answer_length := (wordsOf answer).length
  let length_score : ℚ :=
    if 10 ≤ answer_length ∧ answer_length ≤ 200 then 1 else 1/2
  ⟨has_answer, context_usage_ratio, length_score,
    if 0 < (stripL answer.data).length ∧ (3:ℚ)/10 < context_usage_ratio
    then "Good" else "Needs improvement"⟩

/-- The record built by comprehensive_evaluation (the query echo and nested
reports included). -/
structure CompEval where
  query : String
  retrieval_evaluation : RetrievalEval
  answer_evaluation : AnswerEval
  overall_score : ℚ
  recommendation : String
deriving DecidableEq

/-- comprehensive_evaluation of evaluation.py (lines 115-147), with the
external relevance score as a parameter. -/
def comprehensive_evaluation (relevance_score : ℚ) (query : String)
    (retrieved : List String) (answer : String) : CompEval :=
  let context := joinWith "\n\n" retrieved
  let retrieval_eval := evaluate_retrieval relevance_score query retrieved (3/5)
  let answer_eval := evaluate_answer_quality answer query context
  let overall_score :=
    retrieval_eval.relevance_score * (1/2) + retrieval_eval.coverage * (1/5) +
      answer_eval.context_usage * (1/5) + answer_eval.length_score * (1/10)
  ⟨query, retrieval_eval, answer_eval, overall_score,
    if (7:ℚ)/10 ≤ overall_score then "Good" else "Needs improvement"⟩

/- ===== the POST /ask handler (main.py lines 71-113) ===== -/

/-- A raised fastapi.HTTPException: status code and detail. -/
structure HTTPExc where
  status_code : Nat
  detail : String
deriving DecidableEq

/-- The response model of POST /ask. -/
structure QuestionResponse where
  answer : String
  sources : List String
  confidence : ℚ
  num_sources : Nat
  evaluation : Option CompEval
deriving DecidableEq

/-- The body of the try block of ask_question (main.py lines 81-109): an
empty or whitespace-only question raises HTTPException(400), otherwise the
pipeline answers and the optional evaluation is attached. -/
def ask_question_body (loaded : Bool) (retrieved : List (String × ℚ))
    (llm : Option (String → String → String))
    (summarize : Option (List String → String)) (relevance_score : ℚ)
    (question : String) (evaluate : Bool) : Except HTTPExc QuestionResponse :=
  if String.mk (stripL question.data) = "" then
    Except.error ⟨400, "Question cannot be empty"⟩
  else
    let result := ask loaded retrieved llm summarize question
    let evaluation :=
      if evaluate ∧ result.sources ≠ [] then
        some (comprehensive_evaluation relevance_score question
          result.sources result.answer)
      else none
    Except.ok ⟨result.answer, result.sources, result.confidence,
      result.num_sources, evaluation⟩

/-- ask_question of main.py: the whole body runs inside a try whose
except-Exception clause re-raises every exception as HTTPException(500,
"Internal server error: " followed by str(e)) (main.py lines 111-113).
fastapi.HTTPException derives from Exception and renders as
"status_code: detail", so the HTTPException(400) raised for an empty
question is also caught and converted. -/
def ask_question (loaded : Bool) (retrieved : List (String × ℚ))
    (llm : Option (String → String → String))
    (summarize : Option (List String → String)) (relevance_score : ℚ)
    (question : String) (evaluate : Bool) : Except HTTPExc QuestionResponse :=
  match ask_question_body loaded retrieved llm summarize relevance_score
      question evaluate with
  | Except.ok r => Except.ok r
  | Except.error e =>
    Except.error ⟨500, "Internal server error: " ++ toString e.status_code ++
      ": " ++ e.detail⟩

/-- The status code with which the handler responds, when it errors. -/
def exceptStatus (r : Except HTTPExc QuestionResponse) : Option Nat :=
  match r with
  | Except.error e => some e.status_code
  | Except.ok _ => none

/- ===== definitions supporting the theorems ===== -/

/-- The sentences of the cleaned text, stripped, with the empty ones
dropped: exactly the pieces the chunking loop accumulates. -/
def keptTrim (l : List String) : List String :=
  (l.map trimS).filter (fun x => x ≠ "")

/-- Total token count of a list of chunks. -/
def sumTok (tok : String → Nat) (l : List String) : Nat := (l.map tok).sum

/-- The single chunk assembled when no overflow ever happens: the cleaned
text's stripped sentences re-joined with single spaces. -/
def assembledChunk (s : String) : String :=
  joinSp (keptTrim ((splitSentencesL (clean_text s).data).map String.mk))

/-- A sample retrieval result with four scored chunks. -/
def retrievedSample : List (String × ℚ) :=
  [("a", 9/10), ("b", 4/5), ("c", 7/10), ("d", 3/5)]

/- ===== C1: retrieval threshold and empty store ===== -/

/-- C1: for every query result handed back by the vector store and every
configured threshold, search_similar never returns a pair whose similarity
1 - distance is below the threshold; an absent store (collection not
loadable) and a store holding no documents both yield the empty list. -/
theorem C1_search_similar_threshold_and_empty (threshold : ℚ) :
    (∀ (store : Option QueryResult) (p : String × ℚ),
        p ∈ search_similar threshold store → threshold ≤ p.2)
    ∧ search_similar threshold none = []
    ∧ (∀ dists : List ℚ, search_similar threshold (some ⟨[], dists⟩) = []) := by
  refine ⟨?_, rfl, fun dists => rfl⟩
  intro store p hp
  cases store with
  | none => simp [search_similar] at hp
  | some r =>
    simp only [search_similar, List.mem_filter] at hp
    exact of_decide_eq_true hp.2

/-- Witness for C1 at a one-document store with distance 1/4. -/
theorem C1_search_similar_threshold_and_empty_witness :
    SIMILARITY_THRESHOLD ≤ (("doc", (3:ℚ)/4)).2
    ∧ search_similar SIMILARITY_THRESHOLD none = []
    ∧ search_similar SIMILARITY_THRESHOLD (some ⟨[], [1/2]⟩) = [] := by
  have hm : search_similar SIMILARITY_THRESHOLD (some ⟨["doc"], [1/4]⟩) =
      [("doc", (3:ℚ)/4)] := by
    simp [search_similar, SIMILARITY_THRESHOLD]
    norm_num
  refine ⟨(C1_search_similar_threshold_and_empty SIMILARITY_THRESHOLD).1
      (some ⟨["doc"], [1/4]⟩) ("doc", (3:ℚ)/4) ?_,
    (C1_search_similar_threshold_and_empty SIMILARITY_THRESHOLD).2.1,
    (C1_search_similar_threshold_and_empty SIMILARITY_THRESHOLD).2.2 [1/2]⟩
  rw [hm]
  exact List.mem_singleton.mpr rfl

/- ===== C6: empty retrieval is handled normally ===== -/

/-- C6: when retrieval returns no chunks, RAGPipeline.ask returns the
could-not-find-relevant-information record with empty sources, confidence 0
and num_sources 0, for every LLM configuration, summarization setting and
question; the branch returns a value, it raises nothing. -/
theorem C6_ask_empty_retrieval (llm : Option (String → String → String))
    (summarize : Option (List String → String)) (question : String) :
    ask true [] llm summarize question =
      ⟨"I couldn\x27t find relevant information to answer your question.",
        [], 0, 0⟩ := rfl

/- ===== C7: the answer record on non-empty retrieval ===== -/

/-- C7: on non-empty retrieval the answer record holds at most 3 source
chunks, a confidence equal to the mean similarity of the whole retrieved
set, and num_sources equal to the number of retrieved chunks. -/
theorem C7_ask_record_shape (retrieved : List (String × ℚ))
    (llm : Option (String → String → String))
    (summarize : Option (List String → String)) (question : String)
    (h : retrieved ≠ []) :
    (ask true retrieved llm summarize question).sources.length ≤ 3
    ∧ (ask true retrieved llm summarize question).confidence =
        (retrieved.map Prod.snd).sum / (retrieved.length : ℚ)
    ∧ (ask true retrieved llm summarize question).num_sources =
        retrieved.length := by
  match retrieved, h with
  | a :: t, _ =>
    refine ⟨?_, rfl, rfl⟩
    show ((((a :: t).map Prod.fst).take 3).length) ≤ 3
    rw [List.length_take]
    exact min_le_left _ _

/-- Witness for C7 at a four-chunk retrieval: three sources are returned
while the confidence averages all four scores. -/
theorem C7_ask_record_shape_witness :
    (ask true retrievedSample none none "q").sources.length ≤ 3
    ∧ (ask true retrievedSample none none "q").confidence =
        (retrievedSample.map Prod.snd).sum / (retrievedSample.length : ℚ)
    ∧ (ask true retrievedSample none none "q").num_sources =
        retrievedSample.length :=
  C7_ask_record_shape retrievedSample none none "q" (by decide)

/-- The Good recommendation is exactly the 0.7 cutoff on a score. -/
theorem recommendationGoodIff (x : ℚ) :
    ((if (7:ℚ)/10 ≤ x then "Good" else "Needs improvement") = "Good") ↔
      (7:ℚ)/10 ≤ x := by
  by_cases h : (7:ℚ)/10 ≤ x
  · rw [if_pos h]
    exact ⟨fun _ => h, fun _ => rfl⟩
  · rw [if_neg h]
    exact ⟨fun he => absurd he (by decide), fun hx => absurd hx h⟩

/- ===== C8: the comprehensive evaluation formula ===== -/

/-- C8: the overall score is 0.5 relevance + 0.2 coverage + 0.2 context
usage + 0.1 length score, where the length score is the two-valued function
rewarding answers of 10 to 200 words; the recommendation is Good exactly
when the overall score reaches 0.7. -/
theorem C8_comprehensive_evaluation_formula (relevance_score : ℚ)
    (query : String) (retrieved : List String) (answer : String) :
    (comprehensive_evaluation relevance_score query retrieved answer).overall_score =
      relevance_score * (1/2)
      + (comprehensive_evaluation relevance_score query retrieved
          answer).retrieval_evaluation.coverage * (1/5)
      + (comprehensive_evaluation relevance_score query retrieved
          answer).answer_evaluation.context_usage * (1/5)
      + (comprehensive_evaluation relevance_score query retrieved
          answer).answer_evaluation.length_score * (1/10)
    ∧ ((comprehensive_evaluation relevance_score query retrieved
          answer).recommendation = "Good" ↔
        (7:ℚ)/10 ≤ (comprehensive_evaluation relevance_score query retrieved
          answer).overall_score)
    ∧ (comprehensive_evaluation relevance_score query retrieved
          answer).answer_evaluation.length_score =
        (if 10 ≤ (wordsOf answer).length ∧ (wordsOf answer).length ≤ 200
         then (1:ℚ) else 1/2) := by
  refine ⟨rfl, ?_, rfl⟩
  exact recommendationGoodIff
    ((comprehensive_evaluation relevance_score query retrieved
      answer).overall_score)

/- ===== C9: the empty-question path of POST /ask ===== -/

/-- C9 failing input: the body of the handler raises HTTPException(400) for
a whitespace-only question, exactly as the claim requires, but the
surrounding except-Exception clause of ask_question catches that
HTTPException too and re-raises it as a 500 Internal-server-error, so the
client receives a 500-class response instead of the 400-equivalent one. -/
theorem C9_empty_question_becomes_500 :
    ask_question_body true [] none none 0 "   " false =
      Except.error ⟨400, "Question cannot be empty"⟩
    ∧ exceptStatus (ask_question true [] none none 0 "   " false) = some 500
    ∧ ask_question true [] none none 0 "   " false =
        Except.error
          ⟨500, "Internal server error: 400: Question cannot be empty"⟩ :=
  ⟨rfl, rfl, rfl⟩

/- ===== C3: the spec's two-token chunking example ===== -/

/-- C3 counterexample: on chunk_text with the one-token-per-letter counter,
chunk size 2 and overlap 1, the input of three tiny sentences yields NO
chunks at all, because each assembled chunk has at most 10 tokens and the
small-chunk filter drops every one of them; the returned token total 0 is
strictly below the input's 3 tokens, refuting the coverage claim. -/
theorem C3_example_counterexample :
    chunk_text tokLetters "A. B. C." 2 1 = []
    ∧ ((chunk_text tokLetters "A. B. C." 2 1).map tokLetters).sum = 0
    ∧ tokLetters "A. B. C." = 3
    ∧ ((chunk_text tokLetters "A. B. C." 2 1).map tokLetters).sum <
        tokLetters "A. B. C." := by decide

/-- C3 amended: before the 10-token minimum filter the example drops no
sentences - the assembled chunks "A. B." and "B. C." jointly cover at least
the input's 3 tokens - but both assembled chunks have at most 10 tokens, so
the filter removes them and the returned chunk list is empty. -/
theorem C3_example_prefilter_coverage :
    chunk_text_prefilter tokLetters "A. B. C." 2 1 = ["A. B.", "B. C."]
    ∧ tokLetters "A. B. C." ≤
        ((chunk_text_prefilter tokLetters "A. B. C." 2 1).map tokLetters).sum
    ∧ tokLetters "A. B." ≤ 10
    ∧ tokLetters "B. C." ≤ 10
    ∧ chunk_text tokLetters "A. B. C." 2 1 = [] := by decide

/- ===== C2 counterexample ===== -/

/-- C2 counterexample: an input whose token count is 11 (under any of the
claim's readings: the raw text and the cleaned text both count 11 tokens
with the repository's length/4 counter), well below the chunk-size budget
of 500 and above the 10-token minimum, for which chunk_text nevertheless
returns zero chunks: cleaning turns the removed character into a double
space, sentence splitting consumes it, and the re-joined single chunk has
exactly 10 tokens, so the small-chunk filter drops it. -/
theorem C2_single_chunk_counterexample :
    countTokensApprox "AAAAAAAAAAAAAAAAAAAAA. @ BBBBBBBBBBBBBBBBBBBB" = 11
    ∧ countTokensApprox
        (clean_text "AAAAAAAAAAAAAAAAAAAAA. @ BBBBBBBBBBBBBBBBBBBB") = 11
    ∧ countTokensApprox "AAAAAAAAAAAAAAAAAAAAA. @ BBBBBBBBBBBBBBBBBBBB" < 500
    ∧ chunk_text countTokensApprox
        "AAAAAAAAAAAAAAAAAAAAA. @ BBBBBBBBBBBBBBBBBBBB" 500 50 = [] := by
  decide

/- ===== C4 counterexample ===== -/

/-- C4 counterexample: a text whose returned chunks are NOT overlapping.
Before the filter, three chunks are assembled and the middle one
("AAAAAAAAAAAAAAAAAAAAAAA. Bbbb.", 7 tokens) is dropped by the 10-token
minimum, so the two returned neighbours come from the long-sentence flush
and share nothing: no word of the first returned chunk is a prefix of the
second, and the first chunk's trailing word does not occur in the second at
all. -/
theorem C4_no_overlap_counterexample :
    chunk_text countTokensApprox
        "AAAAAAAAAAAAAAAAAAAAAAA. AAAAAAAAAAAAAAAAAAAAAAA. Bbbb. CCCCCCCCCCCCCCCCCCCCCCCCCCCCCCCCCCCCCCCCCCCCCCCCCCCCCCC."
        12 1 =
      ["AAAAAAAAAAAAAAAAAAAAAAA. AAAAAAAAAAAAAAAAAAAAAAA.",
        "CCCCCCCCCCCCCCCCCCCCCCCCCCCCCCCCCCCCCCCCCCCCCCCCCCCCCCC."]
    ∧ chunk_text_prefilter countTokensApprox
        "AAAAAAAAAAAAAAAAAAAAAAA. AAAAAAAAAAAAAAAAAAAAAAA. Bbbb. CCCCCCCCCCCCCCCCCCCCCCCCCCCCCCCCCCCCCCCCCCCCCCCCCCCCCCC."
        12 1 =
      ["AAAAAAAAAAAAAAAAAAAAAAA. AAAAAAAAAAAAAAAAAAAAAAA.",
        "AAAAAAAAAAAAAAAAAAAAAAA. Bbbb.",
        "CCCCCCCCCCCCCCCCCCCCCCCCCCCCCCCCCCCCCCCCCCCCCCCCCCCCCCC."]
    ∧ ((wordsOf "AAAAAAAAAAAAAAAAAAAAAAA. AAAAAAAAAAAAAAAAAAAAAAA.").all
        (fun w => ! (w.data.isPrefixOf
          "CCCCCCCCCCCCCCCCCCCCCCCCCCCCCCCCCCCCCCCCCCCCCCCCCCCCCCC.".data)))
        = true
    ∧ containsSub
        "CCCCCCCCCCCCCCCCCCCCCCCCCCCCCCCCCCCCCCCCCCCCCCCCCCCCCCC.".data
        "AAAAAAAAAAAAAAAAAAAAAAA.".data = false := by
  decide

/- ===== C10 counterexample ===== -/

/-- C10 counterexample: clean_text is not idempotent.  Removing the
disallowed character of "abcdefghijkl @ mnopqrstuvwx" merges its two
surrounding spaces into a double space, which only a second cleaning pass
collapses; consequently chunk_text returns different chunks for the raw
string and for its cleaned form. -/
theorem C10_clean_text_counterexample :
    clean_text "abcdefghijkl @ mnopqrstuvwx" = "abcdefghijkl  mnopqrstuvwx"
    ∧ clean_text "abcdefghijkl  mnopqrstuvwx" = "abcdefghijkl mnopqrstuvwx"
    ∧ decide (clean_text (clean_text "abcdefghijkl @ mnopqrstuvwx") =
        clean_text "abcdefghijkl @ mnopqrstuvwx") = false
    ∧ chunk_text tokLetters "abcdefghijkl @ mnopqrstuvwx" 500 50 =
        ["abcdefghijkl  mnopqrstuvwx"]
    ∧ chunk_text tokLetters (clean_text "abcdefghijkl @ mnopqrstuvwx") 500 50 =
        ["abcdefghijkl mnopqrstuvwx"]
    ∧ decide (chunk_text tokLetters "abcdefghijkl @ mnopqrstuvwx" 500 50 =
        chunk_text tokLetters (clean_text "abcdefghijkl @ mnopqrstuvwx")
          500 50) = false := by
  decide

/- ===== helper lemmas about String append and joining ===== -/

theorem sdata_append (a b : String) : (a ++ b).data = a.data ++ b.data := rfl

theorem sappend_assoc (a b c : String) : a ++ b ++ c = a ++ (b ++ c) := by
  apply String.ext
  simp only [sdata_append, List.append_assoc]

theorem sappend_empty (a : String) : a ++ "" = a := by
  apply String.ext
  simp only [sdata_append]
  exact List.append_nil a.data

theorem sempty_append (a : String) : "" ++ a = a := rfl

theorem joinWithRest_append (sep : String) (a b : List String) :
    joinWithRest sep (a ++ b) = joinWithRest sep a ++ joinWithRest sep b := by
  induction a with
  | nil => rw [List.nil_append, joinWithRest, sempty_append]
  | cons x t ih =>
    rw [List.cons_append, joinWithRest, joinWithRest, ih, sappend_assoc,
      sappend_assoc, sappend_assoc]

theorem joinWith_append_of_left_ne_nil (sep : String) (a b : List String)
    (ha : a ≠ []) :
    joinWith sep (a ++ b) = joinWith sep a ++ joinWithRest sep b := by
  match a, ha with
  | x :: t, _ =>
    rw [List.cons_append, joinWith, joinWith, joinWithRest_append,
      sappend_assoc]

theorem joinWithRest_eq_of_ne_nil (sep : String) (b : List String)
    (hb : b ≠ []) : joinWithRest sep b = sep ++ joinWith sep b := by
  match b, hb with
  | y :: t, _ =>
    rw [joinWithRest, joinWith, sappend_assoc]

/-- Dropping to the overlap slice always leaves a suffix of the element
list, so its join is a trailing segment of the join of the whole list. -/
theorem joinSp_overlapSlice_suffix (cur : List String) (co : Nat) :
    ∃ pre : String, joinSp cur = pre ++ joinSp (overlapSlice cur co) := by
  unfold overlapSlice
  by_cases h1 : co < cur.length
  · rw [if_pos h1]
    by_cases h0 : co = 0
    · rw [if_pos h0]
      exact ⟨"", (sempty_append _).symm⟩
    · rw [if_neg h0]
      have hsplit : cur = cur.take (cur.length - co) ++ cur.drop (cur.length - co) :=
        (List.take_append_drop _ _).symm
      have htake : cur.take (cur.length - co) ≠ [] := by
        have hlen : (cur.take (cur.length - co)).length = cur.length - co := by
          rw [List.length_take]
          omega
        intro hc
        rw [hc] at hlen
        simp at hlen
        omega
      have hdrop : cur.drop (cur.length - co) ≠ [] := by
        have hlen : (cur.drop (cur.length - co)).length = co := by
          rw [List.length_drop]
          omega
        intro hc
        rw [hc] at hlen
        simp at hlen
        omega
      refine ⟨joinSp (cur.take (cur.length - co)) ++ " ", ?_⟩
      conv =>
        lhs
        rw [joinSp, hsplit, joinWith_append_of_left_ne_nil " " _ _ htake]
      rw [joinWithRest_eq_of_ne_nil " " _ hdrop, joinSp, joinSp, sappend_assoc]
  · rw [if_neg h1]
    exact ⟨"", (sempty_append _).symm⟩

/- ===== C4 amended: what the overflow step actually does ===== -/

/-- C4 amended: when the chunker emits the current chunk because adding the
next (stripped, within-budget) sentence would exceed chunk_size, the new
chunk is seeded with the join of the trailing chunk_overlap ELEMENTS
(sentences, or words in the long-sentence path) of the emitted chunk - an
element slice, not a token slice - followed by the new sentence; that seed
is a trailing segment of the emitted chunk.  The relation holds at these
overflow emissions only: the 10-token filter and the long-sentence flush
can leave consecutive returned chunks with no overlap at all. -/
theorem C4_overflow_step_seeds_with_element_slice (tok : String → Nat)
    (cs co : Nat) (st : ChunkState) (sentence : String)
    (h0 : trimS sentence ≠ "") (h1 : tok (trimS sentence) ≤ cs)
    (h2 : cs < st.size + tok (trimS sentence)) (h3 : st.cur ≠ []) :
    (processSentence tok cs co st sentence).chunks =
        st.chunks ++ [joinSp st.cur]
    ∧ (processSentence tok cs co st sentence).cur =
        (if joinSp (overlapSlice st.cur co) = "" then [trimS sentence]
         else [joinSp (overlapSlice st.cur co), trimS sentence])
    ∧ (∃ pre : String,
        joinSp st.cur = pre ++ joinSp (overlapSlice st.cur co)) := by
  have hno : ¬ cs < tok (trimS sentence) := not_lt.mpr h1
  refine ⟨?_, ?_, joinSp_overlapSlice_suffix st.cur co⟩
  · simp only [processSentence, if_neg h0, if_neg hno, if_pos (And.intro h2 h3)]
  · simp only [processSentence, if_neg h0, if_neg hno, if_pos (And.intro h2 h3)]

/-- Witness for C4 at a concrete overflow step: current chunk of two
sentences and size 6, overlap 1, incoming sentence of 4 tokens with
chunk size 5. -/
theorem C4_overflow_step_seeds_with_element_slice_witness :
    (processSentence tokLetters 5 1 ⟨[], ["Aaa.", "Bbb."], 6⟩ "Dddd.").chunks =
        ([] : List String) ++ [joinSp ["Aaa.", "Bbb."]]
    ∧ (processSentence tokLetters 5 1 ⟨[], ["Aaa.", "Bbb."], 6⟩ "Dddd.").cur =
        (if joinSp (overlapSlice ["Aaa.", "Bbb."] 1) = "" then [trimS "Dddd."]
         else [joinSp (overlapSlice ["Aaa.", "Bbb."] 1), trimS "Dddd."])
    ∧ (∃ pre : String,
        joinSp ["Aaa.", "Bbb."] =
          pre ++ joinSp (overlapSlice ["Aaa.", "Bbb."] 1)) :=
  C4_overflow_step_seeds_with_element_slice tokLetters 5 1
    ⟨[], ["Aaa.", "Bbb."], 6⟩ "Dddd." (by decide) (by decide) (by decide)
    (by decide)

/- ===== helper lemmas for the fallback answerer ===== -/

theorem prefBool_iff {l₁ l₂ : List Char} :
    l₁.isPrefixOf l₂ = true ↔ l₁ <+: l₂ :=
  List.isPrefixOf_iff_prefix

/-- containsSub decides substring containment. -/
theorem containsSub_iff {hay needle : List Char} :
    containsSub hay needle = true ↔ needle <:+: hay := by
  induction hay with
  | nil =>
    cases needle with
    | nil => simp [containsSub, List.isEmpty, List.nil_infix]
    | cons c t => simp [containsSub, List.isEmpty, List.infix_nil]
  | cons a t ih =>
    have he : containsSub (a :: t) needle =
        (needle.isPrefixOf (a :: t) || containsSub t needle) := rfl
    rw [he, Bool.or_eq_true, prefBool_iff, ih]
    exact List.infix_cons_iff.symm

theorem splitBy_ne_nil (p : Char → Bool) (l : List Char) :
    splitBy p l ≠ [] := by
  induction l with
  | nil => simp [splitBy]
  | cons c t ih =>
    by_cases h : p c = true
    · simp [splitBy, h]
    · cases hq : splitBy p t with
      | nil => exact absurd hq ih
      | cons q qs => simp [splitBy, h, hq]

/-- The first piece of a split is a prefix of the list. -/
theorem splitBy_head_pre (p : Char → Bool) :
    ∀ (l : List Char) (q : List Char) (qs : List (List Char)),
      splitBy p l = q :: qs → q <+: l := by
  intro l
  induction l with
  | nil =>
    intro q qs h
    simp only [splitBy] at h
    injection h with h1 h2
    subst h1
    exact List.nil_prefix
  | cons c t ih =>
    intro q qs h
    by_cases hc : p c = true
    · simp only [splitBy, if_pos hc] at h
      injection h with h1 h2
      subst h1
      exact List.nil_prefix
    · cases hq : splitBy p t with
      | nil => exact absurd hq (splitBy_ne_nil p t)
      | cons r rs =>
        simp only [splitBy, if_neg hc, hq] at h
        injection h with h1 h2
        subst h1
        exact (List.cons_prefix_cons).mpr ⟨rfl, ih r rs hq⟩

/-- Every piece of a split is a contiguous part of the list. -/
theorem splitBy_mem_inf (p : Char → Bool) :
    ∀ (l : List Char) (q : List Char), q ∈ splitBy p l → q <:+: l := by
  intro l
  induction l with
  | nil =>
    intro q hq
    simp only [splitBy, List.mem_singleton] at hq
    subst hq
    exact List.nil_infix
  | cons c t ih =>
    intro q hq
    by_cases hc : p c = true
    · simp only [splitBy, if_pos hc, List.mem_cons] at hq
      rcases hq with hq | hq
      · subst hq
        exact List.nil_infix
      · exact List.infix_cons_iff.mpr (Or.inr (ih q hq))
    · cases hs : splitBy p t with
      | nil => exact absurd hs (splitBy_ne_nil p t)
      | cons r rs =>
        simp only [splitBy, if_neg hc, hs, List.mem_cons] at hq
        rcases hq with hq | hq
        · subst hq
          exact ((List.cons_prefix_cons).mpr
            ⟨rfl, splitBy_head_pre p t r rs hs⟩).isInfix
        · exact List.infix_cons_iff.mpr
            (Or.inr (ih q (by rw [hs]; exact List.mem_cons_of_mem r hq)))

/-- A keyword found in a dot-split sentence of the context occurs in the
whole context. -/
theorem containsSub_of_sentence (context : String) (s : String)
    (w : List Char) (hs : s ∈ fb_sentences context)
    (hc : containsSub (lowerS s).data w = true) :
    containsSub (lowerS context).data w = true := by
  rw [containsSub_iff] at hc ⊢
  obtain ⟨p, hp, hps⟩ := List.mem_map.mp hs
  have hpin : p <:+: context.data := splitBy_mem_inf _ _ p hp
  have h1 : (lowerS s).data = p.map Char.toLower := by rw [← hps]; rfl
  rw [h1] at hc
  exact hc.trans (List.IsInfix.map Char.toLower hpin)

/- ===== C5: the fallback answerer contract ===== -/

/-- C5: for every context and question the fallback answerer returns the
join (with ". " and a closing dot) of the first at most two stripped
context sentences containing a question token longer than 3 characters;
when no sentence matches it returns the 200-character truncated context
form; and whenever no question keyword occurs in the (lower-cased) context
at all, the result is the truncated form, a string ending in "...". -/
theorem C5_fallback_selects_sentences (context question : String) :
    (fb_relevant context question ≠ [] →
      fallback_response context question =
        joinWith ". " ((fb_relevant context question).take 2) ++ ".")
    ∧ (fb_relevant context question = [] →
      fallback_response context question =
        "Based on the provided context: " ++
          String.mk (context.data.take 200) ++ "...")
    ∧ ((∀ w ∈ fb_keywords question,
          containsSub (lowerS context).data w.data = false) →
        "...".data <:+ (fallback_response context question).data) := by
  refine ⟨?_, ?_, ?_⟩
  · intro h
    rw [fallback_response, if_neg h]
  · intro h
    rw [fallback_response, if_pos h]
  · intro h
    have hrel : fb_relevant context question = [] := by
      rw [fb_relevant, List.map_eq_nil_iff, List.filter_eq_nil_iff]
      intro s hs hpred
      obtain ⟨w, hw, hcw⟩ := (List.any_eq_true).mp hpred
      have := containsSub_of_sentence context s w.data hs hcw
      rw [h w hw] at this
      exact Bool.false_ne_true this
    rw [fallback_response, if_pos hrel, sdata_append]
    exact List.suffix_append _ _

/-- Witness for C5: a question with no keyword in the context makes the
fallback end in "...". -/
theorem C5_fallback_selects_sentences_witness :
    "...".data <:+ (fallback_response "Short context here" "zzzz wwww").data :=
  (C5_fallback_selects_sentences "Short context here" "zzzz wwww").2.2
    (by decide)

/- ===== helper lemmas for the no-overflow chunking theorem ===== -/

theorem cutSents_ne_nil : ∀ l : List Char, cutSents l ≠ [] := by
  intro l
  match l with
  | [] => simp [cutSents]
  | [c] => simp [cutSents]
  | c :: d :: t =>
    by_cases h : (sentEndB c && wsB d) = true
    · simp [cutSents, h]
    · cases hq : cutSents (d :: t) with
      | nil => exact absurd hq (cutSents_ne_nil (d :: t))
      | cons q qs => simp [cutSents, h, hq]

theorem cutSents_flatten : ∀ l : List Char, (cutSents l).flatten = l := by
  intro l
  match l with
  | [] => rfl
  | [c] => rfl
  | c :: d :: t =>
    by_cases h : (sentEndB c && wsB d) = true
    · have ih := cutSents_flatten (d :: t)
      simp [cutSents, h, ih]
    · cases hq : cutSents (d :: t) with
      | nil => exact absurd hq (cutSents_ne_nil (d :: t))
      | cons q qs =>
        have ih := cutSents_flatten (d :: t)
        rw [hq] at ih
        simp only [cutSents, if_neg h, hq, List.flatten_cons, List.cons_append]
        rw [← List.flatten_cons, ih]

theorem cutSents_sumlen (l : List Char) :
    ((cutSents l).map List.length).sum = l.length := by
  rw [← List.length_flatten, cutSents_flatten]

theorem splitSentencesL_sumlen (l : List Char) :
    ((splitSentencesL l).map List.length).sum ≤ l.length := by
  unfold splitSentencesL
  cases hc : cutSents l with
  | nil => simp
  | cons q qs =>
    have hsum : q.length + (qs.map List.length).sum = l.length := by
      have h0 := cutSents_sumlen l
      rw [hc] at h0
      simpa using h0
    have hdw : ((qs.map (List.dropWhile wsB)).map List.length).sum ≤
        (qs.map List.length).sum := by
      rw [List.map_map]
      exact List.sum_le_sum
        (fun i _ => (List.dropWhile_suffix wsB).length_le)
    simp only [List.map_cons, List.sum_cons]
    omega

theorem stripL_length_le (l : List Char) : (stripL l).length ≤ l.length := by
  unfold stripL
  have h1 : ((l.dropWhile wsB).reverse.dropWhile wsB).length ≤
      (l.dropWhile wsB).reverse.length := (List.dropWhile_suffix wsB).length_le
  have h2 : (l.dropWhile wsB).length ≤ l.length :=
    (List.dropWhile_suffix wsB).length_le
  simp only [List.length_reverse] at h1 ⊢
  omega

theorem div4_sum_le : ∀ ns : List Nat,
    (ns.map (fun n => n / 4)).sum ≤ ns.sum / 4 := by
  intro ns
  induction ns with
  | nil => simp
  | cons n t ih =>
    simp only [List.map_cons, List.sum_cons]
    have key : n / 4 + t.sum / 4 ≤ (n + t.sum) / 4 := by
      rw [Nat.le_div_iff_mul_le (by norm_num : 0 < 4)]
      have a1 : n / 4 * 4 ≤ n := Nat.div_mul_le_self n 4
      have a2 : t.sum / 4 * 4 ≤ t.sum := Nat.div_mul_le_self _ 4
      calc (n / 4 + t.sum / 4) * 4 = n / 4 * 4 + t.sum / 4 * 4 := by ring
        _ ≤ n + t.sum := Nat.add_le_add a1 a2
    have := Nat.add_le_add_left ih (n / 4)
    omega

theorem sum_map_filter_le (f : String → Nat) (p : String → Bool)
    (l : List String) : ((l.filter p).map f).sum ≤ (l.map f).sum := by
  induction l with
  | nil => simp
  | cons x t ih =>
    by_cases hx : p x = true
    · simp only [List.filter_cons, if_pos hx, List.map_cons, List.sum_cons]
      omega
    · simp only [List.filter_cons, if_neg hx, List.map_cons, List.sum_cons]
      omega

/-- The total approximate token count of the stripped non-empty sentences
never exceeds the token count of the text they were split from. -/
theorem sumTok_keptTrim_le (t : String) :
    sumTok countTokensApprox
        (keptTrim ((splitSentencesL t.data).map String.mk)) ≤
      countTokensApprox t := by
  unfold sumTok keptTrim
  have h1 := sum_map_filter_le countTokensApprox (fun x => x ≠ "")
    (((splitSentencesL t.data).map String.mk).map trimS)
  have h2 : ((((splitSentencesL t.data).map String.mk).map trimS).map
      countTokensApprox).sum =
      ((splitSentencesL t.data).map (fun p => (stripL p).length / 4)).sum := by
    rw [List.map_map, List.map_map]
    rfl
  have h3 : ((splitSentencesL t.data).map
      (fun p => (stripL p).length / 4)).sum ≤
      ((splitSentencesL t.data).map (fun p => (stripL p).length)).sum / 4 := by
    have := div4_sum_le ((splitSentencesL t.data).map
      (fun p => (stripL p).length))
    rw [List.map_map] at this
    exact this
  have h4 : ((splitSentencesL t.data).map (fun p => (stripL p).length)).sum ≤
      ((splitSentencesL t.data).map List.length).sum :=
    List.sum_le_sum (fun p _ => stripL_length_le p)
  have h5 := splitSentencesL_sumlen t.data
  have h6 : ((splitSentencesL t.data).map (fun p => (stripL p).length)).sum / 4 ≤
      t.data.length / 4 := Nat.div_le_div_right (le_trans h4 h5)
  have hfinal : countTokensApprox t = t.data.length / 4 := rfl
  rw [hfinal]
  refine le_trans h1 ?_
  rw [h2]
  exact le_trans h3 h6

/-- As long as every sentence fits, the chunking fold only accumulates the
stripped non-empty sentences and tracks the sum of their token counts. -/
theorem foldl_processSentence_small (tok : String → Nat) (cs co : Nat) :
    ∀ (ps : List String) (K : List String),
      sumTok tok K + sumTok tok (keptTrim ps) < cs →
      ps.foldl (processSentence tok cs co) ⟨[], K, sumTok tok K⟩ =
        ⟨[], K ++ keptTrim ps, sumTok tok (K ++ keptTrim ps)⟩ := by
  intro ps
  induction ps with
  | nil =>
    intro K h
    simp [keptTrim]
  | cons p ps ih =>
    intro K h
    rw [List.foldl_cons]
    by_cases hp : trimS p = ""
    · have hstep : processSentence tok cs co ⟨[], K, sumTok tok K⟩ p =
          ⟨[], K, sumTok tok K⟩ := by
        simp [processSentence, hp]
      have hk : keptTrim (p :: ps) = keptTrim ps := by
        simp [keptTrim, hp]
      rw [hk] at h
      rw [hstep, ih K h, hk]
    · have hk : keptTrim (p :: ps) = trimS p :: keptTrim ps := by
        simp [keptTrim, hp]
      rw [hk] at h
      have hsum : sumTok tok (trimS p :: keptTrim ps) =
          tok (trimS p) + sumTok tok (keptTrim ps) := by
        simp [sumTok]
      rw [hsum] at h
      have h1 : ¬ cs < tok (trimS p) := by omega
      have h2 : ¬ cs < sumTok tok K + tok (trimS p) := by omega
      have hstep : processSentence tok cs co ⟨[], K, sumTok tok K⟩ p =
          ⟨[], K ++ [trimS p], sumTok tok K + tok (trimS p)⟩ := by
        simp only [processSentence, if_neg hp, if_neg h1]
        rw [if_neg (fun hand => h2 hand.1)]
      have hs2 : sumTok tok K + tok (trimS p) = sumTok tok (K ++ [trimS p]) := by
        simp [sumTok]
      have hb : sumTok tok (K ++ [trimS p]) + sumTok tok (keptTrim ps) < cs := by
        rw [← hs2]
        omega
      rw [hstep, hs2, ih (K ++ [trimS p]) hb, hk]
      simp [List.append_assoc]

/- ===== C2 amended: single chunk below budget, 10-token minimum ===== -/

/-- C2 amended: when the CLEANED text's approximate token count is below
the chunk-size budget, chunk_text returns exactly one chunk - the cleaned
text's stripped sentences re-joined with single spaces - when that
re-joined chunk exceeds the 10-token minimum, and zero chunks otherwise
(the counterexample shows the counts must be read on the re-joined chunk,
not on the raw input); and, for every token counter, no returned chunk
ever has 10 or fewer tokens. -/
theorem C2_single_chunk_amended :
    (∀ (s : String) (cs co : Nat),
      countTokensApprox (clean_text s) < cs →
      chunk_text countTokensApprox s cs co =
        (if 10 < countTokensApprox (assembledChunk s) then [assembledChunk s]
         else []))
    ∧ (∀ (tok : String → Nat) (s : String) (cs co : Nat) (c : String),
        c ∈ chunk_text tok s cs co → 10 < tok c) := by
  constructor
  · intro s cs co h
    by_cases ht : clean_text s = ""
    · have ha : assembledChunk s = "" := by
        rw [assembledChunk, ht]
        decide
      rw [ha]
      simp only [chunk_text, chunk_text_prefilter, if_pos ht]
      simp [countTokensApprox]
    · have hb : sumTok countTokensApprox
          (keptTrim ((splitSentencesL (clean_text s).data).map String.mk)) <
            cs := lt_of_le_of_lt (sumTok_keptTrim_le (clean_text s)) h
      have hb0 : sumTok countTokensApprox ([] : List String) +
          sumTok countTokensApprox
            (keptTrim ((splitSentencesL (clean_text s).data).map String.mk)) <
            cs := by
        simpa [sumTok] using hb
      have hfold := foldl_processSentence_small countTokensApprox cs co
        ((splitSentencesL (clean_text s).data).map String.mk) [] hb0
      simp only [sumTok, List.map_nil, List.sum_nil, List.nil_append] at hfold
      simp only [chunk_text, chunk_text_prefilter, if_neg ht, hfold]
      by_cases hc : keptTrim ((splitSentencesL (clean_text s).data).map
          String.mk) = []
      · rw [hc]
        have ha : assembledChunk s = "" := by
          rw [assembledChunk, hc]
          rfl
        rw [ha]
        simp [countTokensApprox]
      · rw [if_neg hc]
        have ha : assembledChunk s =
            joinSp (keptTrim ((splitSentencesL (clean_text s).data).map
              String.mk)) := rfl
        rw [← ha]
        rw [List.nil_append, List.filter_cons]
        by_cases hten : 10 < countTokensApprox (assembledChunk s)
        · rw [if_pos hten]
          simp [hten]
        · rw [if_neg hten]
          simp [hten]
  · intro tok s cs co c hc
    rw [chunk_text] at hc
    exact of_decide_eq_true (List.mem_filter.mp hc).2

/-- Witness for C2 amended at a one-sentence text of 12 tokens. -/
theorem C2_single_chunk_amended_witness :
    chunk_text countTokensApprox
        "The quick brown fox jumps over the lazy dog today." 500 50 =
      (if 10 < countTokensApprox (assembledChunk
            "The quick brown fox jumps over the lazy dog today.")
       then [assembledChunk
            "The quick brown fox jumps over the lazy dog today."]
       else [])
    ∧ 10 < countTokensApprox (assembledChunk
        "The quick brown fox jumps over the lazy dog today.") :=
  ⟨C2_single_chunk_amended.1
      "The quick brown fox jumps over the lazy dog today." 500 50 (by decide),
    C2_single_chunk_amended.2 countTokensApprox
      "The quick brown fox jumps over the lazy dog today." 500 50
      (assembledChunk "The quick brown fox jumps over the lazy dog today.")
      (by decide)⟩

/- ===== helper lemmas for clean_text idempotence ===== -/

/-- No two adjacent whitespace characters. -/
def noTwoWs (a b : Char) : Prop := ¬ (wsB a = true ∧ wsB b = true)

theorem collapseGo_chars : ∀ (l : List Char) (b : Bool) (c : Char),
    c ∈ collapseGo l b → c = ' ' ∨ c ∈ l := by
  intro l
  induction l with
  | nil => intro b c hc; simp [collapseGo] at hc
  | cons d t ih =>
    intro b c hc
    by_cases hd : wsB d = true
    · cases b with
      | true =>
        simp only [collapseGo, if_pos hd] at hc
        rcases ih true c hc with h | h
        · exact Or.inl h
        · exact Or.inr (List.mem_cons_of_mem d h)
      | false =>
        simp only [collapseGo, if_pos hd] at hc
        rcases List.mem_cons.mp hc with h | h
        · exact Or.inl h
        · rcases ih true c h with h2 | h2
          · exact Or.inl h2
          · exact Or.inr (List.mem_cons_of_mem d h2)
    · simp only [collapseGo, if_neg hd] at hc
      rcases List.mem_cons.mp hc with h | h
      · subst h
        exact Or.inr (List.mem_cons_self c t)
      · rcases ih false c h with h2 | h2
        · exact Or.inl h2
        · exact Or.inr (List.mem_cons_of_mem d h2)

theorem collapseGo_true_head : ∀ (l : List Char) (c : Char),
    (collapseGo l true).head? = some c → wsB c = false := by
  intro l
  induction l with
  | nil => intro c hc; simp [collapseGo] at hc
  | cons d t ih =>
    intro c hc
    by_cases hd : wsB d = true
    · simp only [collapseGo, if_pos hd] at hc
      exact ih c hc
    · simp only [collapseGo, if_neg hd, List.head?_cons] at hc
      injection hc with hc
      subst hc
      exact Bool.not_eq_true _ ▸ (by simpa using hd)

theorem collapseGo_ws_space : ∀ (l : List Char) (b : Bool) (c : Char),
    c ∈ collapseGo l b → wsB c = true → c = ' ' := by
  intro l
  induction l with
  | nil => intro b c hc; simp [collapseGo] at hc
  | cons d t ih =>
    intro b c hc hw
    by_cases hd : wsB d = true
    · cases b with
      | true =>
        simp only [collapseGo, if_pos hd] at hc
        exact ih true c hc hw
      | false =>
        simp only [collapseGo, if_pos hd] at hc
        rcases List.mem_cons.mp hc with h | h
        · exact h
        · exact ih true c h hw
    · simp only [collapseGo, if_neg hd] at hc
      rcases List.mem_cons.mp hc with h | h
      · subst h
        exact absurd hw (by simpa using hd)
      · exact ih false c h hw

theorem collapseGo_chain : ∀ (l : List Char) (b : Bool),
    List.Chain' noTwoWs (collapseGo l b) := by
  intro l
  induction l with
  | nil => intro b; simp [collapseGo]
  | cons d t ih =>
    intro b
    by_cases hd : wsB d = true
    · cases b with
      | true =>
        simp only [collapseGo, if_pos hd]
        exact ih true
      | false =>
        simp only [collapseGo, if_pos hd]
        refine (List.chain'_cons').mpr ⟨?_, ih true⟩
        intro y hy
        have := collapseGo_true_head t y hy
        intro hand
        rw [this] at hand
        exact Bool.false_ne_true hand.2
    · simp only [collapseGo, if_neg hd]
      refine (List.chain'_cons').mpr ⟨?_, ih false⟩
      intro y hy
      intro hand
      exact hd hand.1

theorem collapseGo_eq_self : ∀ l : List Char,
    List.Chain' noTwoWs l → (∀ c ∈ l, wsB c = true → c = ' ') →
    collapseGo l false = l := by
  intro l
  induction l with
  | nil => intro _ _; rfl
  | cons c t ih =>
    intro hchain hsp
    obtain ⟨hhead, hchain2⟩ := (List.chain'_cons').mp hchain
    have hsp2 : ∀ x ∈ t, wsB x = true → x = ' ' :=
      fun x hx => hsp x (List.mem_cons_of_mem c hx)
    by_cases hc : wsB c = true
    · have hcsp : c = ' ' := hsp c (List.mem_cons_self c t) hc
      simp only [collapseGo, if_pos hc]
      have htrue : collapseGo t true = t := by
        cases t with
        | nil => rfl
        | cons d t2 =>
          have hdw : wsB d = false := by
            have := hhead d rfl
            by_contra hdd
            exact this ⟨hc, by simpa using hdd⟩
          have h1 : collapseGo (d :: t2) true = d :: collapseGo t2 false := by
            simp [collapseGo, hdw]
          have h2 : collapseGo (d :: t2) false = d :: collapseGo t2 false := by
            simp [collapseGo, hdw]
          rw [h1, ← h2]
          exact ih hchain2 hsp2
      rw [htrue, hcsp]
      simp
    · simp only [collapseGo, if_neg hc]
      rw [ih hchain2 hsp2]

theorem pre_head (u v : List Char) (c : Char) (h : u <+: v)
    (hc : u.head? = some c) : v.head? = some c := by
  obtain ⟨w, hw⟩ := h
  cases u with
  | nil => simp at hc
  | cons a t =>
    simp only [List.head?_cons] at hc
    rw [← hw]
    simpa using hc

theorem dropWhile_head_not (p : Char → Bool) :
    ∀ (l : List Char) (c : Char),
      (l.dropWhile p).head? = some c → p c = false := by
  intro l
  induction l with
  | nil => intro c hc; simp [List.dropWhile] at hc
  | cons a t ih =>
    intro c hc
    by_cases ha : p a = true
    · rw [List.dropWhile_cons_of_pos ha] at hc
      exact ih c hc
    · rw [List.dropWhile_cons_of_neg ha] at hc
      simp only [List.head?_cons] at hc
      injection hc with hc
      subst hc
      simpa using ha

theorem dropWhile_eq_self_of_head (p : Char → Bool) (l : List Char)
    (h : ∀ c, l.head? = some c → p c = false) : l.dropWhile p = l := by
  cases l with
  | nil => rfl
  | cons a t =>
    have := h a rfl
    exact List.dropWhile_cons_of_neg (by simp [this])

theorem stripL_inf (l : List Char) : stripL l <:+: l := by
  have h1 : (l.dropWhile wsB).reverse.dropWhile wsB <:+ (l.dropWhile wsB).reverse :=
    List.dropWhile_suffix wsB
  have h2 : stripL l <+: l.dropWhile wsB := by
    rw [stripL]
    have := (@List.reverse_suffix Char
      (((l.dropWhile wsB).reverse.dropWhile wsB).reverse)
      (l.dropWhile wsB)).mp
    apply this
    simpa using h1
  exact h2.isInfix.trans (List.dropWhile_suffix wsB).isInfix

theorem stripL_idem (l : List Char) : stripL (stripL l) = stripL l := by
  have hA : (stripL l).dropWhile wsB = stripL l := by
    apply dropWhile_eq_self_of_head
    intro c hc
    have hpre : stripL l <+: l.dropWhile wsB := by
      rw [stripL]
      have h1 : (l.dropWhile wsB).reverse.dropWhile wsB <:+
          (l.dropWhile wsB).reverse := List.dropWhile_suffix wsB
      apply (@List.reverse_suffix Char
        (((l.dropWhile wsB).reverse.dropWhile wsB).reverse)
        (l.dropWhile wsB)).mp
      simpa using h1
    have := pre_head _ _ c hpre hc
    exact dropWhile_head_not wsB l c this
  have hB : (stripL l).reverse.dropWhile wsB = (stripL l).reverse := by
    apply dropWhile_eq_self_of_head
    intro c hc
    have hrev : (stripL l).reverse = (l.dropWhile wsB).reverse.dropWhile wsB := by
      rw [stripL, List.reverse_reverse]
    rw [hrev] at hc
    exact dropWhile_head_not wsB _ c hc
  show (((stripL l).dropWhile wsB).reverse.dropWhile wsB).reverse = stripL l
  rw [hA, hB, List.reverse_reverse]

/-- On a string with no removable character, clean_text is idempotent. -/
theorem cleanTextL_idem (l : List Char)
    (hk : ∀ c ∈ l, keepCharB c = true) :
    cleanTextL (cleanTextL l) = cleanTextL l := by
  have hkeep1 : ∀ c ∈ collapseGo l false, keepCharB c = true := by
    intro c hc
    rcases collapseGo_chars l false c hc with h | h
    · subst h
      decide
    · exact hk c h
  have hfil1 : List.filter keepCharB (collapseGo l false) = collapseGo l false :=
    List.filter_eq_self.mpr hkeep1
  have he1 : cleanTextL l = stripL (collapseGo l false) := by
    rw [cleanTextL, hfil1]
  have hinf : stripL (collapseGo l false) <:+: collapseGo l false :=
    stripL_inf _
  have hkr : ∀ c ∈ stripL (collapseGo l false), keepCharB c = true :=
    fun c hc => hkeep1 c (hinf.subset hc)
  have hchain : List.Chain' noTwoWs (stripL (collapseGo l false)) :=
    List.Chain'.infix (collapseGo_chain l false) hinf
  have hsp : ∀ c ∈ stripL (collapseGo l false), wsB c = true → c = ' ' :=
    fun c hc => collapseGo_ws_space l false c (hinf.subset hc)
  have hcol : collapseGo (stripL (collapseGo l false)) false =
      stripL (collapseGo l false) :=
    collapseGo_eq_self _ hchain hsp
  have hkeep2 : ∀ c ∈ collapseGo (stripL (collapseGo l false)) false,
      keepCharB c = true := by
    rw [hcol]
    exact hkr
  rw [he1]
  show stripL (List.filter keepCharB
    (collapseGo (stripL (collapseGo l false)) false)) =
      stripL (collapseGo l false)
  rw [List.filter_eq_self.mpr hkeep2, hcol, stripL_idem]

/- ===== C10 amended: idempotence on strings with no removed character ===== -/

/-- C10 amended: clean_text is idempotent - and chunk_text therefore yields
the same chunks for s and clean_text(s) - for every string containing only
kept characters (word characters, whitespace, kept punctuation).  On
strings with a removed character the property fails, because deleting the
character can merge two whitespace runs (see the counterexample). -/
theorem C10_clean_text_idem_amended (s : String) (tok : String → Nat)
    (cs co : Nat) (hk : ∀ c ∈ s.data, keepCharB c = true) :
    clean_text (clean_text s) = clean_text s
    ∧ chunk_text tok s cs co = chunk_text tok (clean_text s) cs co := by
  have h1 : clean_text (clean_text s) = clean_text s := by
    apply String.ext
    show cleanTextL (cleanTextL s.data) = cleanTextL s.data
    exact cleanTextL_idem s.data hk
  refine ⟨h1, ?_⟩
  simp only [chunk_text, chunk_text_prefilter, h1]

/-- Witness for C10 amended on a keep-only string with a double space. -/
theorem C10_clean_text_idem_amended_witness :
    clean_text (clean_text "Hello  world. Second bit.") =
      clean_text "Hello  world. Second bit."
    ∧ chunk_text tokLetters "Hello  world. Second bit." 500 50 =
        chunk_text tokLetters (clean_text "Hello  world. Second bit.") 500 50 :=
  C10_clean_text_idem_amended "Hello  world. Second bit." tokLetters 500 50
    (by decide)
